import Mathlib

/-!
Shallow embedding of the publish/subscribe and observer implementations of the
javascript-design-patterns repository, and theorems checking the broker
specification against them.

Embedded source files:
* `src/observer-pattern/example-1.js` — the `ObserverList`/`Subject` pair and
  the `pubsub` token broker (pubsubz).
* `src/observer-pattern/example-3.js` — the single-subject `Click` variant.
* `src/unnamed/part_002` — the `publisherSubscriber` container variant.

Conventions: payloads and function identities are opaque and modelled as `Nat`;
JavaScript arrays become `List`; the mutable broker objects become explicit
state values threaded through the operations; subscriber callbacks, which may
re-enter the broker, are modelled by a small action language `Cb`; a thrown
exception is modelled by a `Bool`/`Outcome` flag (state changes made before the
throw persist, as in JavaScript).
-/

namespace JSDP

/-- Opaque stand-in for JavaScript payload / context values. -/
abbrev Payload := Nat

/-- JavaScript values that the broker operations can return: booleans, numbers,
strings (subscription tokens) and the broker object itself (`this`). -/
inductive JsValue where
  | bool (b : Bool)
  | num (n : Nat)
  | str (s : String)
  | handle
deriving DecidableEq, Repr

/-- Result of an operation that can throw: a normal return value or a thrown
exception (`TypeError` etc.). -/
inductive Outcome where
  | ret (v : JsValue)
  | thrown
deriving DecidableEq, Repr

/-! ### Decimal string conversion

`pubsub.subscribe` builds its token with `(++subUid).toString()`. We embed
`Number.prototype.toString` (base 10) on integers: little-endian digit list,
then ASCII digit characters, most significant first, with a leading `-` for
negative values. -/

/-- The ASCII character of a decimal digit, as produced by `toString`. -/
def digitChar (d : Nat) : Char := Char.ofNat (48 + d)

/-- Little-endian decimal digits, structurally recursive on a fuel bound (any
`fuel ≥ n` gives the digits of `n`; division by 10 shrinks faster than the
fuel). -/
def natDigitsRevFuel : Nat → Nat → List Nat
  | 0, n => [n]
  | fuel + 1, n => if n < 10 then [n] else (n % 10) :: natDigitsRevFuel fuel (n / 10)

/-- Little-endian decimal digits of a natural number (the digits of `0` are
`[0]`, matching `(0).toString() = "0"`). -/
def natDigitsRev (n : Nat) : List Nat := natDigitsRevFuel n n

/-- Decimal representation of a natural number, as `Number.prototype.toString`
produces it. -/
def natToString (n : Nat) : String := ⟨((natDigitsRev n).reverse.map digitChar)⟩

/-- Decimal representation of an integer: sign, then digits. -/
def intToString (i : Int) : String :=
  match i with
  | Int.ofNat n => natToString n
  | Int.negSucc n => String.mk ('-' :: ((natDigitsRev (n + 1)).reverse.map digitChar))

/-- Inverse of `natDigitsRev`: reassemble a natural number from little-endian
digits. Used only to prove the digit list injective. -/
def undigits : List Nat → Nat
  | [] => 0
  | d :: ds => d + 10 * undigits ds

/-! ### The `pubsub` broker of `src/observer-pattern/example-1.js`

```js
var topics = {};          // string-keyed object, insertion-ordered keys
var subUid = -1;
myObject.publish = function (topic, args) { ... };
myObject.subscribe = function (topic, func) { ... };
myObject.unsubscribe = function (token) { ... };
```

`topics` is modelled as an association list in key-insertion order (`for..in`
over non-numeric string keys enumerates them in insertion order). A subscriber
callback is a `Cb`: a finite sequence of re-entrant broker actions ending in a
plain return or a throw; invoking it is recorded in an invocation log
`(token, topic, payload)` carried by the state. -/

/-- A subscriber callback, as an action sequence: it may call
`pubsub.unsubscribe` or `pubsub.subscribe` on the same broker and finally
returns normally (`ret`) or throws (`throws`). -/
inductive Cb where
  | ret
  | throws
  | unsub (tok : String) (next : Cb)
  | sub (t : String) (f : Cb) (next : Cb)
deriving DecidableEq, Repr

/-- One entry of a topic's subscriber array: `{ token: token, func: func }`. -/
structure Subscription where
  token : String
  func : Cb
deriving DecidableEq, Repr

/-- The closed-over state of the `pubsub` module, plus the observation log of
callback invocations `(token of the subscription, topic argument, payload
argument)`. -/
structure BrokerState where
  topics : List (String × List Subscription)
  subUid : Int
  log : List (String × String × Payload)
deriving DecidableEq, Repr

/-- The broker as the IIFE leaves it: no topics, `subUid = -1`. -/
def pubsubInit : BrokerState := ⟨[], -1, []⟩

/-- Embeds `topics[topic]`: first (and only) entry with this key, `undefined` if
absent. -/
def lookupTopic : List (String × List Subscription) → String → Option (List Subscription)
  | [], _ => none
  | (m, subs) :: rest, t => if m = t then some subs else lookupTopic rest t

/-- Embeds `topics[topic].push(s)` on an existing key: replace the first entry's array
by the array with `s` appended. -/
def pushSub : List (String × List Subscription) → String → Subscription →
    List (String × List Subscription)
  | [], _, _ => []
  | (m, subs) :: rest, t, s =>
    if m = t then (m, subs ++ [s]) :: rest else (m, subs) :: pushSub rest t s

/-- Embeds `pubsub.subscribe(topic, func)`:
```js
if (!topics[topic]) { topics[topic] = []; }
var token = (++subUid).toString();
topics[topic].push({ token: token, func: func });
return token;
```
A missing key is created at the end of the key order. Returns the new state and
the token. -/
def subscribe (st : BrokerState) (t : String) (f : Cb) : BrokerState × String :=
  let topics1 :=
    if (lookupTopic st.topics t).isNone then st.topics ++ [(t, [])] else st.topics
  let uid := st.subUid + 1
  let token := intToString uid
  ({ st with topics := pushSub topics1 t ⟨token, f⟩, subUid := uid }, token)

/-- The inner loop of `pubsub.unsubscribe` on one topic's array:
`for (i = 0, j = len; i < j; i++) if (arr[i].token === token) { arr.splice(i, 1); return token; }`
— remove the first entry whose token matches, `none` if no entry matches. -/
def spliceFirstMatch : List Subscription → String → Option (List Subscription)
  | [], _ => none
  | s :: rest, tok =>
    if s.token = tok then some rest
    else (spliceFirstMatch rest tok).map (fun l => s :: l)

/-- The outer `for (var m in topics)` loop of `pubsub.unsubscribe`: visit the
topics in key order, splice out the first match, leave everything else as it
was; `none` when no topic contains the token. (The `if (topics[m])` truthiness
guard always passes: every stored value is an array, and arrays are truthy.) -/
def unsubTopics : List (String × List Subscription) → String →
    Option (List (String × List Subscription))
  | [], _ => none
  | (m, subs) :: rest, tok =>
    match spliceFirstMatch subs tok with
    | some subs' => some ((m, subs') :: rest)
    | none => (unsubTopics rest tok).map (fun l => (m, subs) :: l)

/-- Embeds `pubsub.unsubscribe(token)`: returns the token on a removal and `this`
(the broker handle) when the loops fall through. -/
def unsubscribe (st : BrokerState) (tok : String) : BrokerState × JsValue :=
  match unsubTopics st.topics tok with
  | some tps => ({ st with topics := tps }, JsValue.str tok)
  | none => (st, JsValue.handle)

/-- Run a callback body: each action re-enters the broker; the `Bool` reports
whether the callback threw (`subscribe`/`unsubscribe` themselves never
throw). -/
def runCb (st : BrokerState) : Cb → BrokerState × Bool
  | Cb.ret => (st, false)
  | Cb.throws => (st, true)
  | Cb.unsub tok next => runCb (unsubscribe st tok).1 next
  | Cb.sub t f next => runCb (subscribe st t f).1 next

/-- Embeds `subscribers[len].func(topic, args)`: record the invocation, then run the
callback body. -/
def invokeSub (st : BrokerState) (s : Subscription) (t : String) (p : Payload) :
    BrokerState × Bool :=
  runCb { st with log := st.log ++ [(s.token, t, p)] } s.func

/-- The `while (len--) { subscribers[len].func(topic, args); }` loop of
`pubsub.publish`. `subscribers` aliases the live array `topics[topic]` (it is
never replaced, only mutated in place), so every index access rereads the
current state; the fuel is the length captured before the loop, counting the
index down from `len - 1` to `0`. Reading a hole (`subscribers[n]` undefined
after concurrent removals) or a callback throw aborts with `true`. -/
def publishLoop (t : String) (p : Payload) : Nat → BrokerState → BrokerState × Bool
  | 0, st => (st, false)
  | n + 1, st =>
    match lookupTopic st.topics t with
    | none => (st, true)
    | some subs =>
      match subs[n]? with
      | none => (st, true)
      | some s =>
        match invokeSub st s t p with
        | (st', true) => (st', true)
        | (st', false) => publishLoop t p n st'

/-- Embeds `pubsub.publish(topic, args)`:
```js
if (!topics[topic]) { return false; }
var subscribers = topics[topic], len = subscribers ? subscribers.length : 0;
while (len--) { subscribers[len].func(topic, args); }
return this;
```
An absent topic returns `false` (an empty array is truthy, so an empty topic
runs the loop zero times and returns `this`). -/
def publish (st : BrokerState) (t : String) (p : Payload) : BrokerState × Outcome :=
  match lookupTopic st.topics t with
  | none => (st, Outcome.ret (JsValue.bool false))
  | some subs =>
    let (st', threw) := publishLoop t p subs.length st
    (st', if threw then Outcome.thrown else Outcome.ret JsValue.handle)

/-- All tokens stored in the registry, in registry order. -/
def registryTokens (tps : List (String × List Subscription)) : List String :=
  (tps.map (fun pr => pr.2.map Subscription.token)).flatten

/-- A sequence of top-level `pubsub.subscribe` calls, collecting the returned
tokens. -/
def runSubs : BrokerState → List (String × Cb) → BrokerState × List String
  | st, [] => (st, [])
  | st, (t, f) :: rest =>
    let (st', tok) := subscribe st t f
    let (stF, toks) := runSubs st' rest
    (stF, tok :: toks)

/-! ### `ObserverList` / `Subject` of `src/observer-pattern/example-1.js`

Observers are objects compared by reference identity (`===`); we model a
reference by a numeric identity. The `update` method is overridden by the
application; the behaviours the claims quantify over are updates that may add
new observers to the subject while a `notify` is in flight, so an observer
carries the identities of the (plain) observers its `update` adds. -/

/-- An observer reference: its identity and the identities of the plain
observers its custom `update(value)` adds via `addObserver` (empty for an
observer whose update only reacts to the context). -/
structure Obs where
  id : Nat
  toAdd : List Nat
deriving DecidableEq, Repr

/-- Embeds `function ObserverList() { this.observerList = []; }`. -/
structure ObserverList where
  observerList : List Obs
deriving DecidableEq, Repr

/-- Embeds `ObserverList.prototype.add`: `return this.observerList.push(obj);` —
append, returning the new length. -/
def ObserverList.add (l : ObserverList) (obj : Obs) : ObserverList × Nat :=
  (⟨l.observerList ++ [obj]⟩, l.observerList.length + 1)

/-- Embeds `ObserverList.prototype.count`: `return this.observerList.length;` -/
def ObserverList.countObs (l : ObserverList) : Nat := l.observerList.length

/-- JavaScript indexed read `arr[i]` for a possibly negative index:
`undefined` (`none`) outside `0 ≤ i < length`. -/
def jsIndex (l : List Obs) (i : Int) : Option Obs :=
  if i < 0 then none else l[i.toNat]?

/-- Embeds `ObserverList.prototype.get`: bounds-checked read
(`index > -1 && index < length`), `undefined` otherwise. -/
def ObserverList.getObs (l : ObserverList) (index : Int) : Option Obs :=
  if index > -1 ∧ index < (l.observerList.length : Int) then jsIndex l.observerList index
  else none

/-- The `while (i < length)` scan of `ObserverList.prototype.indexOf`: compare
`observerList[i] === obj` from `i = startIndex` upward, returning the first hit
or `-1`. (A negative `i` reads `undefined`, which never equals an object.) The
fuel is the exact number of remaining loop iterations, `(length - i).toNat`:
it is `0` iff the guard `i < length` fails. -/
def indexOfAux (l : List Obs) (obj : Obs) : Nat → Int → Int
  | 0, _ => -1
  | fuel + 1, i => if jsIndex l i = some obj then i else indexOfAux l obj fuel (i + 1)

/-- Embeds `ObserverList.prototype.indexOf(obj, startIndex)`. -/
def ObserverList.indexOfObs (l : ObserverList) (obj : Obs) (startIndex : Int) : Int :=
  indexOfAux l.observerList obj ((l.observerList.length : Int) - startIndex).toNat startIndex

/-- Embeds `Array.prototype.splice(start, 1)` (ECMAScript): a negative `start` is
taken from the end (`max(len + start, 0)`), a too-large one is clamped to
`len`; at most one element is deleted at the actual start. In particular
`splice(-1, 1)` on a non-empty array removes the last element. -/
def splice1 (l : List Obs) (start : Int) : List Obs :=
  let len : Int := l.length
  let actual : Int := if start < 0 then max (len + start) 0 else min start len
  l.eraseIdx actual.toNat

/-- Embeds `ObserverList.prototype.removeAt`: `this.observerList.splice(index, 1);` —
no bounds check of its own. -/
def ObserverList.removeAt (l : ObserverList) (index : Int) : ObserverList :=
  ⟨splice1 l.observerList index⟩

/-- Embeds `function Subject() { this.observers = new ObserverList(); }`, together
with the observation log of `update` invocations `(observer id, context)`. -/
structure Subject where
  observers : ObserverList
  log : List (Nat × Payload)
deriving DecidableEq, Repr

/-- Embeds `Subject.prototype.addObserver`: `this.observers.add(observer);` (the
returned length is discarded). -/
def Subject.addObserver (s : Subject) (observer : Obs) : Subject :=
  { s with observers := (s.observers.add observer).1 }

/-- Embeds `Subject.prototype.removeObserver`:
`this.observers.removeAt(this.observers.indexOf(observer, 0));` — the `-1` of a
failed lookup is passed to `splice` unguarded. -/
def Subject.removeObserver (s : Subject) (observer : Obs) : Subject :=
  { s with observers := s.observers.removeAt (s.observers.indexOfObs observer 0) }

/-- Invoking `observer.update(context)`: record the invocation, then perform
the adds this observer's update makes (each via `addObserver`, i.e. appended at
the end). -/
def Subject.applyUpdate (s : Subject) (o : Obs) (context : Payload) : Subject :=
  let s1 := { s with log := s.log ++ [(o.id, context)] }
  o.toAdd.foldl (fun acc n => acc.addObserver ⟨n, []⟩) s1

/-- The `for (var i = 0; i < observerCount; i++)` loop of
`Subject.prototype.notify`: `observerCount` was read once before the loop;
each step does `this.observers.get(i).update(context)` against the live list.
`get` returning `undefined` makes the `.update` call throw (`true`). The fuel
is `observerCount - i`, the exact number of remaining iterations; it is `0`
iff the guard `i < observerCount` fails. -/
def notifyLoop (context : Payload) : Nat → Nat → Subject → Subject × Bool
  | 0, _, s => (s, false)
  | fuel + 1, i, s =>
    match s.observers.getObs (i : Int) with
    | none => (s, true)
    | some o => notifyLoop context fuel (i + 1) (s.applyUpdate o context)

/-- Embeds `Subject.prototype.notify(context)`:
```js
var observerCount = this.observers.count();
for (var i = 0; i < observerCount; i++) { this.observers.get(i).update(context); }
```
-/
def Subject.notify (s : Subject) (context : Payload) : Subject × Bool :=
  notifyLoop context (s.observers.countObs) 0 s

/-! ### The `Click` subject of `src/observer-pattern/example-3.js`

Handlers are function references compared with `!==`; we model a reference by
a numeric identity (function objects are always truthy). -/

/-- A handler function reference. -/
abbrev Handler := Nat

/-- Embeds `function Click() { this.handlers = []; }`. -/
structure Click where
  handlers : List Handler
deriving DecidableEq, Repr

/-- Truthiness of the value the `unsubscribe` filter callback returns: the
handler itself (a function object, truthy) or `undefined` (falsy). -/
def jsTruthy : Option Handler → Bool
  | some _ => true
  | none => false

/-- Embeds `Click.prototype.subscribe`: `this.handlers.push(fn);` -/
def Click.subscribe (c : Click) (fn : Handler) : Click :=
  { c with handlers := c.handlers ++ [fn] }

/-- Embeds `Click.prototype.unsubscribe`:
```js
this.handlers = this.handlers.filter(function (item) {
    if (item !== fn) { return item; }
});
```
The callback returns the handler (truthy) for items different from `fn` and
`undefined` (falsy) for `fn` itself. -/
def Click.unsubscribe (c : Click) (fn : Handler) : Click :=
  { c with
    handlers :=
      c.handlers.filter (fun item => jsTruthy (if item ≠ fn then some item else none)) }

/-- The `this.handlers.forEach(function (item) { item.call(scope, o); })` loop
of `Click.prototype.fire`, accumulating the invocations `(handler, event)`.
(The `scope`/`thisObj` binding does not affect which handlers run.) -/
def fireLoop (o : Payload) (acc : List (Handler × Payload)) :
    List Handler → List (Handler × Payload)
  | [] => acc
  | h :: rest => fireLoop o (acc ++ [(h, o)]) rest

/-- Embeds `Click.prototype.fire(o, thisObj)`: invoke every current handler once, in
order, with the event `o`. -/
def Click.fire (c : Click) (o : Payload) : List (Handler × Payload) :=
  fireLoop o [] c.handlers

/-! ### The `publisherSubscriber` container of `src/unnamed/part_002`

```js
var id = 0;
container.subscribe = function (topic, f) { ... return id; };
container.unsubscribe = function (topic, id) { ... };
container.publish = function (topic, data) { ... };
```

The container object doubles as the topic map (`topic in container`), so the
topic key space also contains the three method properties; subscribing or
publishing to a topic named after a method hits a function-valued property and
throws. Callbacks here are opaque function identities (no re-entrancy is needed
for the claims over this variant). -/

/-- One entry of a container topic's array: `{ id: id, callback: f }`. -/
structure PSub where
  id : Nat
  callback : Nat
deriving DecidableEq, Repr

/-- The closed-over state of the container module, plus the observation log of
callback invocations `(callback identity, data argument)` — the container's
`publish` passes the callbacks only the data, not the topic. -/
structure PSState where
  id : Nat
  topics : List (String × List PSub)
  log : List (Nat × Payload)
deriving DecidableEq, Repr

/-- The container as the IIFE leaves it. -/
def psInit : PSState := ⟨0, [], []⟩

/-- The container's own method properties, visible to `topic in container`. -/
def psMethodNames : List String := ["subscribe", "unsubscribe", "publish"]

/-- Embeds `container[topic]` restricted to the topic arrays. -/
def psLookup : List (String × List PSub) → String → Option (List PSub)
  | [], _ => none
  | (m, subs) :: rest, t => if m = t then some subs else psLookup rest t

/-- Embeds `container[topic].push(s)` on an existing topic key. -/
def psPush : List (String × List PSub) → String → PSub → List (String × List PSub)
  | [], _, _ => []
  | (m, subs) :: rest, t, s =>
    if m = t then (m, subs ++ [s]) :: rest else (m, subs) :: psPush rest t s

/-- Embeds `container.subscribe(topic, f)`:
```js
if (!(topic in container)) { container[topic] = []; }
container[topic].push({ id: ++id, callback: f });
return id;
```
For a topic named after one of the container's methods the `in` test passes,
`container[topic].push` is `undefined`, and the call throws — after the
argument object has already incremented `id`. `none` models the throw. -/
def psSubscribe (st : PSState) (t : String) (f : Nat) : PSState × Option Nat :=
  if t ∈ psMethodNames then ({ st with id := st.id + 1 }, none)
  else
    let topics1 :=
      if (psLookup st.topics t).isNone then st.topics ++ [(t, [])] else st.topics
    let newId := st.id + 1
    ({ st with id := newId, topics := psPush topics1 t ⟨newId, f⟩ }, some newId)

/-- The `for (var subscriber of container[topic])` loop of
`container.publish`, accumulating the invocations. Each callback receives only
`data`. -/
def psPublishLoop (d : Payload) (acc : List (Nat × Payload)) :
    List PSub → List (Nat × Payload)
  | [] => acc
  | s :: rest => psPublishLoop d (acc ++ [(s.callback, d)]) rest

/-- Embeds `container.publish(topic, data)`: iterating `container[topic]` throws a
`TypeError` when the topic was never subscribed to (the value is `undefined`)
or names a method (the value is a function, not iterable); the `Bool` reports
the throw. -/
def psPublish (st : PSState) (t : String) (d : Payload) : PSState × Bool :=
  if t ∈ psMethodNames then (st, true)
  else
    match psLookup st.topics t with
    | none => (st, true)
    | some subs => ({ st with log := psPublishLoop d st.log subs }, false)

/-- A sequence of top-level `container.subscribe` calls, collecting the
returned ids; a throw aborts the run. -/
def runPsSubs : PSState → List (String × Nat) → PSState × List Nat
  | st, [] => (st, [])
  | st, (t, f) :: rest =>
    match psSubscribe st t f with
    | (st', some tok) =>
      let (stF, toks) := runPsSubs st' rest
      (stF, tok :: toks)
    | (st', none) => (st', [])

/-- The subscriptions of a topic array that survive a publish in which every
callback either returns plainly or unsubscribes its own token: exactly the
plain returners. -/
def keepSubs (l : List Subscription) : List Subscription :=
  l.filter (fun s => decide (s.func = Cb.ret))

/-- The observers that the updates of the observers in `v` add during a
notification, in invocation order. -/
def addedObs (v : List Obs) : List Obs :=
  (v.map (fun o => o.toAdd.map (fun n => (⟨n, []⟩ : Obs)))).flatten

/-! ### Concrete broker states used by counterexamples and witnesses -/

/-- Two plain subscribers on topic `"clicks"` (tokens `"0"` then `"1"`), built
by two `subscribe` calls on the fresh broker. -/
def exTwoSubs : BrokerState :=
  (subscribe (subscribe pubsubInit ("clicks") Cb.ret).1 ("clicks") Cb.ret).1

/-- Three subscribers on topic `"t"`: two plain ones (tokens `"0"`, `"1"`) and
a third (token `"2"`) whose callback unsubscribes token `"0"` — another,
earlier subscription — during the publish. -/
def exRemoval : BrokerState :=
  (subscribe
    (subscribe (subscribe pubsubInit ("t") Cb.ret).1 ("t") Cb.ret).1
    ("t") (Cb.unsub ("0") Cb.ret)).1

/-- Two subscribers on topic `"t"`: a plain one (token `"0"`) and one whose
callback throws (token `"1"`; it is invoked first, the loop running from the
end of the array). -/
def exThrower : BrokerState :=
  (subscribe (subscribe pubsubInit ("t") Cb.ret).1 ("t") Cb.throws).1

/-- Two topics with one plain subscriber each (token `"0"` on `"a"`, token
`"1"` on `"b"`). -/
def exTwoTopics : BrokerState :=
  (subscribe (subscribe pubsubInit ("a") Cb.ret).1 ("b") Cb.ret).1

/-- A topic whose only subscriber unsubscribed again: `"t"` maps to the empty
array (an empty array is truthy, so `publish` does not take the `false`
branch). -/
def exEmptyTopic : BrokerState :=
  (unsubscribe (subscribe pubsubInit ("t") Cb.ret).1 ("0")).1

/-- Three subscribers on `"t"`: a plain one, a self-unsubscriber, a plain one
(tokens `"0"`, `"1"`, `"2"`). -/
def exSelfUnsub : BrokerState :=
  (subscribe
    (subscribe (subscribe pubsubInit ("t") Cb.ret).1 ("t") (Cb.unsub ("1") Cb.ret)).1
    ("t") Cb.ret).1

/-! ## Helper lemmas -/

theorem undigits_natDigitsRevFuel :
    ∀ (fuel n : Nat), n ≤ fuel → undigits (natDigitsRevFuel fuel n) = n := by
  intro fuel
  induction fuel with
  | zero =>
    intro n hn
    have : n = 0 := by omega
    subst this
    simp [natDigitsRevFuel, undigits]
  | succ fuel ih =>
    intro n hn
    by_cases h : n < 10
    · simp [natDigitsRevFuel, h, undigits]
    · have hdiv : n / 10 ≤ fuel := by
        have := Nat.div_lt_self (show 0 < n by omega) (show 1 < 10 by norm_num)
        omega
      simp only [natDigitsRevFuel, if_neg h, undigits, ih (n / 10) hdiv]
      omega

theorem undigits_natDigitsRev (n : Nat) : undigits (natDigitsRev n) = n :=
  undigits_natDigitsRevFuel n n (Nat.le_refl n)

theorem natDigitsRev_inj {m n : Nat} (h : natDigitsRev m = natDigitsRev n) : m = n := by
  have hm := undigits_natDigitsRev m
  rw [h, undigits_natDigitsRev] at hm
  omega

theorem natDigitsRevFuel_lt :
    ∀ (fuel n : Nat), n ≤ fuel → ∀ d ∈ natDigitsRevFuel fuel n, d < 10 := by
  intro fuel
  induction fuel with
  | zero =>
    intro n hn d hd
    have : n = 0 := by omega
    subst this
    simp only [natDigitsRevFuel, List.mem_singleton] at hd
    omega
  | succ fuel ih =>
    intro n hn d hd
    by_cases h : n < 10
    · simp only [natDigitsRevFuel, if_pos h, List.mem_singleton] at hd
      omega
    · simp only [natDigitsRevFuel, if_neg h, List.mem_cons] at hd
      rcases hd with h1 | h2
      · omega
      · have hdiv : n / 10 ≤ fuel := by
          have := Nat.div_lt_self (show 0 < n by omega) (show 1 < 10 by norm_num)
          omega
        exact ih (n / 10) hdiv d h2

theorem natDigitsRev_lt (n : Nat) : ∀ d ∈ natDigitsRev n, d < 10 :=
  natDigitsRevFuel_lt n n (Nat.le_refl n)

theorem digitChar_inj : ∀ d1 < 10, ∀ d2 < 10, digitChar d1 = digitChar d2 → d1 = d2 := by
  decide

theorem map_digitChar_inj :
    ∀ (l1 l2 : List Nat), (∀ d ∈ l1, d < 10) → (∀ d ∈ l2, d < 10) →
      l1.map digitChar = l2.map digitChar → l1 = l2 := by
  intro l1
  induction l1 with
  | nil =>
    intro l2 _ _ h
    cases l2 with
    | nil => rfl
    | cons b bs => simp at h
  | cons a as ih =>
    intro l2 h1 h2 h
    cases l2 with
    | nil => simp at h
    | cons b bs =>
      simp only [List.map_cons, List.cons.injEq] at h
      have ha : a = b :=
        digitChar_inj a (h1 a (by simp)) b (h2 b (by simp)) h.1
      have hs : as = bs :=
        ih bs (fun d hd => h1 d (by simp [hd])) (fun d hd => h2 d (by simp [hd])) h.2
      rw [ha, hs]

theorem natToString_injective : Function.Injective natToString := by
  intro m n h
  apply natDigitsRev_inj
  apply List.reverse_injective
  apply map_digitChar_inj
  · intro d hd
    exact natDigitsRev_lt m d (List.mem_reverse.mp hd)
  · intro d hd
    exact natDigitsRev_lt n d (List.mem_reverse.mp hd)
  · exact congrArg String.data h

theorem runSubs_tokens (calls : List (String × Cb)) :
    ∀ st : BrokerState,
      (runSubs st calls).2
        = (List.range calls.length).map
            (fun i : Nat => intToString (st.subUid + 1 + (i : Int))) := by
  induction calls with
  | nil => intro st; simp [runSubs]
  | cons c rest ih =>
    intro st
    obtain ⟨t, f⟩ := c
    rw [show ((t, f) :: rest).length = rest.length + 1 from rfl,
      List.range_succ_eq_map, List.map_cons, List.map_map]
    simp only [runSubs, subscribe]
    rw [ih]
    refine congrArg₂ (· :: ·) (by norm_num) ?_
    apply List.map_congr_left
    intro i _
    simp only [Function.comp_apply]
    congr 1
    push_cast
    ring

theorem runPsSubs_ids (calls : List (String × Nat)) :
    ∀ st : PSState,
      (∀ x ∈ (runPsSubs st calls).2, st.id < x) ∧
        ((runPsSubs st calls).2).Pairwise (· < ·) := by
  induction calls with
  | nil => intro st; simp [runPsSubs]
  | cons c rest ih =>
    intro st
    obtain ⟨t, f⟩ := c
    by_cases hm : t ∈ psMethodNames
    · simp [runPsSubs, psSubscribe, hm]
    · have hrun :
          runPsSubs st ((t, f) :: rest)
            = ((runPsSubs { st with
                  id := st.id + 1,
                  topics := psPush
                    (if (psLookup st.topics t).isNone then st.topics ++ [(t, [])]
                     else st.topics) t ⟨st.id + 1, f⟩ } rest).1,
               (st.id + 1) ::
                 (runPsSubs { st with
                  id := st.id + 1,
                  topics := psPush
                    (if (psLookup st.topics t).isNone then st.topics ++ [(t, [])]
                     else st.topics) t ⟨st.id + 1, f⟩ } rest).2) := by
        simp [runPsSubs, psSubscribe, hm]
      obtain ⟨ih1, ih2⟩ := ih { st with
        id := st.id + 1,
        topics := psPush
          (if (psLookup st.topics t).isNone then st.topics ++ [(t, [])]
           else st.topics) t ⟨st.id + 1, f⟩ }
      rw [hrun]
      constructor
      · intro x hx
        simp only [List.mem_cons] at hx
        rcases hx with h1 | h2

        · omega
        · have := ih1 x h2
          simp only at this
          omega
      · refine List.Pairwise.cons ?_ ih2
        intro x hx
        have := ih1 x hx
        simp only at this
        omega

theorem spliceFirstMatch_eq_none {l : List Subscription} {tok : String}
    (h : tok ∉ l.map Subscription.token) : spliceFirstMatch l tok = none := by
  induction l with
  | nil => rfl
  | cons s rest ih =>
    simp only [List.map_cons, List.mem_cons, not_or] at h
    have hs : ¬s.token = tok := fun hc => h.1 hc.symm
    simp only [spliceFirstMatch, if_neg hs, ih h.2]
    rfl

theorem spliceFirstMatch_mem {l : List Subscription} {tok : String}
    (h : tok ∈ l.map Subscription.token) :
    ∃ pre s post, l = pre ++ s :: post ∧ s.token = tok ∧
      tok ∉ pre.map Subscription.token ∧
      spliceFirstMatch l tok = some (pre ++ post) := by
  induction l with
  | nil => simp at h
  | cons s rest ih =>
    by_cases hs : s.token = tok
    · exact ⟨[], s, rest, rfl, hs, by simp, by simp [spliceFirstMatch, hs]⟩
    · simp only [List.map_cons, List.mem_cons] at h
      rcases h with h1 | h2
      · exact absurd h1.symm hs
      · obtain ⟨pre, s', post, hl, hst, hpre, hsp⟩ := ih h2
        refine ⟨s :: pre, s', post, by rw [hl]; rfl, hst, ?_, ?_⟩
        · simp only [List.map_cons, List.mem_cons, not_or]
          exact ⟨fun hc => hs hc.symm, hpre⟩
        · simp [spliceFirstMatch, hs, hsp]

theorem spliceFirstMatch_append (l₁ : List Subscription) (s : Subscription)
    (l₂ : List Subscription) {tok : String} (hs : s.token = tok)
    (h : tok ∉ l₁.map Subscription.token) :
    spliceFirstMatch (l₁ ++ s :: l₂) tok = some (l₁ ++ l₂) := by
  induction l₁ with
  | nil => simp [spliceFirstMatch, hs]
  | cons a as ih =>
    simp only [List.map_cons, List.mem_cons, not_or] at h
    have ha : ¬a.token = tok := fun hc => h.1 hc.symm
    simp [spliceFirstMatch, if_neg ha, ih h.2]

theorem unsubTopics_skip (A : List (String × List Subscription))
    (rest : List (String × List Subscription)) {tok : String}
    (h : ∀ pr ∈ A, tok ∉ pr.2.map Subscription.token) :
    unsubTopics (A ++ rest) tok = (unsubTopics rest tok).map (fun l => A ++ l) := by
  induction A with
  | nil => simp
  | cons a as ih =>
    obtain ⟨m, subs⟩ := a
    have hn : spliceFirstMatch subs tok = none :=
      spliceFirstMatch_eq_none (h (m, subs) (by simp))
    have ih' := ih (fun pr hpr => h pr (List.mem_cons_of_mem _ hpr))
    simp only [List.cons_append, unsubTopics, hn, List.append_eq, ih']
    cases unsubTopics rest tok <;> rfl

theorem unsubTopics_none (tps : List (String × List Subscription)) {tok : String}
    (h : tok ∉ registryTokens tps) : unsubTopics tps tok = none := by
  have := unsubTopics_skip tps [] (fun pr hpr => by
    intro hc
    exact h (by
      simp only [registryTokens, List.mem_flatten]
      exact ⟨pr.2.map Subscription.token, List.mem_map_of_mem _ hpr, hc⟩))
  simpa using this

theorem lookupTopic_append (A B : List (String × List Subscription)) (t : String)
    (x : List Subscription) (h : ∀ pr ∈ A, pr.1 ≠ t) :
    lookupTopic (A ++ (t, x) :: B) t = some x := by
  induction A with
  | nil => simp [lookupTopic]
  | cons a as ih =>
    obtain ⟨m, subs⟩ := a
    have hm : m ≠ t := h (m, subs) (by simp)
    simp only [List.cons_append, lookupTopic, if_neg hm]
    exact ih (fun pr hpr => h pr (by simp [hpr]))

theorem unsubTopics_count_one (tps : List (String × List Subscription)) (tok : String)
    (h : (registryTokens tps).count tok = 1) :
    ∃ A B m pre s post,
      tps = A ++ (m, pre ++ s :: post) :: B ∧ s.token = tok ∧
        unsubTopics tps tok = some (A ++ (m, pre ++ post) :: B) := by
  induction tps with
  | nil => simp [registryTokens] at h
  | cons hd rest ih =>
    obtain ⟨m, subs⟩ := hd
    have hreg : registryTokens ((m, subs) :: rest)
        = subs.map Subscription.token ++ registryTokens rest := by
      simp [registryTokens]
    by_cases hmem : tok ∈ subs.map Subscription.token
    · obtain ⟨pre, s, post, hl, hst, _, hsp⟩ := spliceFirstMatch_mem hmem
      exact ⟨[], rest, m, pre, s, post, by rw [hl]; rfl, hst, by
        simp [unsubTopics, hsp]⟩
    · have hcnt : (registryTokens rest).count tok = 1 := by
        rw [hreg, List.count_append] at h
        rw [List.count_eq_zero_of_not_mem hmem] at h
        omega
      obtain ⟨A, B, m', pre, s, post, hl, hst, hu⟩ := ih hcnt
      refine ⟨(m, subs) :: A, B, m', pre, s, post, by rw [hl]; rfl, hst, ?_⟩
      simp [unsubTopics, spliceFirstMatch_eq_none hmem, hu]

theorem publishLoop_rets (A B : List (String × List Subscription)) (t : String)
    (p : Payload) (u : List Subscription) (hA : ∀ pr ∈ A, pr.1 ≠ t) :
    ∀ v : List Subscription, (∀ s ∈ v, s.func = Cb.ret) →
      ∀ (w : List Subscription) (uid : Int) (lg : List (String × String × Payload)),
        publishLoop t p (u.length + v.length) ⟨A ++ (t, u ++ v ++ w) :: B, uid, lg⟩
          = publishLoop t p u.length
              ⟨A ++ (t, u ++ v ++ w) :: B, uid,
                lg ++ v.reverse.map (fun s => (s.token, t, p))⟩ := by
  intro v
  induction v using List.reverseRecOn with
  | nil => intro _ w uid lg; simp
  | append_singleton vs a ih =>
    intro hv w uid lg
    have hlen : u.length + (vs ++ [a]).length = (u.length + vs.length) + 1 := by
      simp only [List.length_append, List.length_singleton]
      omega
    have hlist : u ++ (vs ++ [a]) ++ w = u ++ vs ++ (a :: w) := by
      simp
    rw [hlen, hlist]
    have hlook : lookupTopic (A ++ (t, u ++ vs ++ (a :: w)) :: B) t
        = some (u ++ vs ++ (a :: w)) := lookupTopic_append A B t _ hA
    have hget : (u ++ vs ++ (a :: w))[u.length + vs.length]? = some a := by
      rw [List.append_assoc,
        List.getElem?_append_right (by simp : u.length ≤ u.length + vs.length)]
      simp only [Nat.add_sub_cancel_left]
      rw [List.getElem?_append_right (Nat.le_refl vs.length)]
      simp
    have ha : a.func = Cb.ret := hv a (by simp)
    simp only [publishLoop, hlook, hget, invokeSub, ha, runCb]
    have ihh := ih (fun s hs => hv s (by simp [hs])) (a :: w) uid (lg ++ [(a.token, t, p)])
    rw [ihh]
    simp

theorem publishLoop_tame (A B : List (String × List Subscription)) (t : String)
    (p : Payload) (o : List Subscription)
    (hA : ∀ pr ∈ A, pr.1 ≠ t)
    (hAtok : ∀ s ∈ o, ∀ pr ∈ A, s.token ∉ pr.2.map Subscription.token)
    (hnd : (o.map Subscription.token).Nodup)
    (htame : ∀ s ∈ o, s.func = Cb.ret ∨ s.func = Cb.unsub s.token Cb.ret) :
    ∀ n : Nat, n ≤ o.length →
      ∀ (uid : Int) (lg : List (String × String × Payload)),
        publishLoop t p n ⟨A ++ (t, o.take n ++ keepSubs (o.drop n)) :: B, uid, lg⟩
          = (⟨A ++ (t, keepSubs o) :: B, uid,
              lg ++ (o.take n).reverse.map (fun s => (s.token, t, p))⟩, false) := by
  intro n
  induction n with
  | zero => intro _ uid lg; simp [publishLoop]
  | succ n ih =>
    intro hn uid lg
    have hnl : n < o.length := by omega
    have hmem : o[n] ∈ o := List.getElem_mem hnl
    have htake : o.take (n + 1) = o.take n ++ [o[n]] := by
      rw [List.take_succ, List.getElem?_eq_getElem hnl]
      rfl
    have hdrop : o.drop n = o[n] :: o.drop (n + 1) := List.drop_eq_getElem_cons hnl
    have hlook : lookupTopic
        (A ++ (t, o.take (n + 1) ++ keepSubs (o.drop (n + 1))) :: B) t
        = some (o.take (n + 1) ++ keepSubs (o.drop (n + 1))) :=
      lookupTopic_append A B t _ hA
    have hget : (o.take (n + 1) ++ keepSubs (o.drop (n + 1)))[n]? = some o[n] := by
      rw [List.getElem?_append]
      have hlt : n < (o.take (n + 1)).length := by
        rw [List.length_take]
        omega
      rw [if_pos hlt, List.getElem?_take, if_pos (Nat.lt_succ_self n),
        List.getElem?_eq_getElem hnl]
    have hlog : lg ++ (o.take (n + 1)).reverse.map (fun s => (s.token, t, p))
        = (lg ++ [(o[n].token, t, p)]) ++ (o.take n).reverse.map (fun s => (s.token, t, p)) := by
      rw [htake, List.reverse_append]
      simp only [List.reverse_singleton, List.map_append, List.map_cons, List.map_nil,
        List.singleton_append, List.append_assoc]
    rcases htame o[n] hmem with hr | hu
    · have hmid : o.take (n + 1) ++ keepSubs (o.drop (n + 1))
          = o.take n ++ keepSubs (o.drop n) := by
        rw [htake, hdrop]
        simp only [keepSubs, List.filter_cons]
        rw [if_pos (by simp [hr]), List.append_assoc]
        rfl
      simp only [publishLoop, hlook, hget, invokeSub, hr, runCb]
      rw [hmid, ih (by omega) uid (lg ++ [(o[n].token, t, p)]), hlog]
    · have hnotin : o[n].token ∉ (o.take n).map Subscription.token := by
        intro hc
        have hsplit : o.map Subscription.token
            = (o.take n).map Subscription.token ++ (o.drop n).map Subscription.token := by
          rw [← List.map_append, List.take_append_drop]
        rw [hsplit, List.nodup_append] at hnd
        exact hnd.2.2 hc
          (show o[n].token ∈ (o.drop n).map Subscription.token by
            rw [hdrop]
            exact List.mem_map_of_mem _ (List.mem_cons_self _ _))
      have hsplice : spliceFirstMatch
          (o.take (n + 1) ++ keepSubs (o.drop (n + 1))) o[n].token
          = some (o.take n ++ keepSubs (o.drop (n + 1))) := by
        rw [htake, List.append_assoc]
        exact spliceFirstMatch_append (o.take n) o[n] (keepSubs (o.drop (n + 1))) rfl hnotin
      have hAnot : ∀ pr ∈ A, o[n].token ∉ pr.2.map Subscription.token :=
        fun pr hpr => hAtok o[n] hmem pr hpr
      have hskip := unsubTopics_skip A
        ((t, o.take (n + 1) ++ keepSubs (o.drop (n + 1))) :: B) hAnot
      have hun : unsubTopics
          (A ++ (t, o.take (n + 1) ++ keepSubs (o.drop (n + 1))) :: B) o[n].token
          = some (A ++ (t, o.take n ++ keepSubs (o.drop (n + 1))) :: B) := by
        rw [hskip]
        simp only [unsubTopics, hsplice]
        rfl
      have hkeep : keepSubs (o.drop (n + 1)) = keepSubs (o.drop n) := by
        rw [hdrop]
        simp only [keepSubs, List.filter_cons]
        rw [if_neg (by simp [hu])]
      simp only [publishLoop, hlook, hget, invokeSub, hu, runCb, unsubscribe, hun]
      rw [hkeep, ih (by omega) uid (lg ++ [(o[n].token, t, p)]), hlog]

theorem foldl_addObserver (ids : List Nat) :
    ∀ s : Subject,
      ids.foldl (fun acc n => acc.addObserver ⟨n, []⟩) s
        = { s with observers := ⟨s.observers.observerList ++ ids.map (fun n => ⟨n, []⟩)⟩ } := by
  induction ids with
  | nil => intro s; simp
  | cons a as ih =>
    intro s
    rw [List.foldl_cons, ih]
    simp [Subject.addObserver, ObserverList.add]

theorem notifyLoop_adds (ctx : Payload) :
    ∀ (v u extra : List Obs) (lg : List (Nat × Payload)),
      notifyLoop ctx v.length u.length ⟨⟨u ++ v ++ extra⟩, lg⟩
        = (⟨⟨u ++ v ++ extra ++ addedObs v⟩, lg ++ v.map (fun o => (o.id, ctx))⟩, false) := by
  intro v
  induction v with
  | nil =>
    intro u extra lg
    simp [notifyLoop, addedObs]
  | cons o v' ih =>
    intro u extra lg
    have hgetObs : (ObserverList.mk (u ++ (o :: v') ++ extra)).getObs (u.length : Int)
        = some o := by
      have hlen : (u.length : Int) < ((u ++ (o :: v') ++ extra).length : Int) := by
        simp only [List.length_append, List.length_cons]
        push_cast
        omega
      simp only [ObserverList.getObs, jsIndex]
      rw [if_pos ⟨by omega, hlen⟩, if_neg (by omega)]
      rw [Int.toNat_natCast, List.append_assoc,
        List.getElem?_append_right (Nat.le_refl u.length)]
      simp
    have happ : (Subject.mk ⟨u ++ (o :: v') ++ extra⟩ lg).applyUpdate o ctx
        = ⟨⟨(u ++ [o]) ++ v' ++ (extra ++ o.toAdd.map (fun n => ⟨n, []⟩))⟩,
            lg ++ [(o.id, ctx)]⟩ := by
      simp only [Subject.applyUpdate, foldl_addObserver]
      congr 1
      simp
    show notifyLoop ctx (v'.length + 1) u.length ⟨⟨u ++ (o :: v') ++ extra⟩, lg⟩ = _
    rw [notifyLoop, hgetObs]
    show notifyLoop ctx v'.length (u.length + 1)
        ((Subject.mk ⟨u ++ (o :: v') ++ extra⟩ lg).applyUpdate o ctx) = _
    rw [happ,
      show u.length + 1 = (u ++ [o]).length by simp,
      ih (u ++ [o]) (extra ++ o.toAdd.map (fun n => (⟨n, []⟩ : Obs)))
        (lg ++ [(o.id, ctx)])]
    refine congrArg₂ Prod.mk ?_ rfl
    refine congrArg₂ Subject.mk (congrArg ObserverList.mk ?_) (by simp)
    simp [addedObs]

theorem fireLoop_eq (o : Payload) :
    ∀ (hs : List Handler) (acc : List (Handler × Payload)),
      fireLoop o acc hs = acc ++ hs.map (fun h => (h, o)) := by
  intro hs
  induction hs with
  | nil => intro acc; simp [fireLoop]
  | cons h rest ih =>
    intro acc
    rw [fireLoop, ih]
    simp

theorem psPublishLoop_eq (d : Payload) :
    ∀ (subs : List PSub) (acc : List (Nat × Payload)),
      psPublishLoop d acc subs = acc ++ subs.map (fun s => (s.callback, d)) := by
  intro subs
  induction subs with
  | nil => intro acc; simp [psPublishLoop]
  | cons s rest ih =>
    intro acc
    rw [psPublishLoop, ih]
    simp

/-! ## Claim theorems -/

/-- C1, counterexample: with `cb1` (token `"0"`) subscribed to `"clicks"`
before `cb2` (token `"1"`), `pubsub.publish("clicks", 5)` invokes `cb2` first
and `cb1` second — the `while (len--)` loop runs backwards — refuting the
claimed "the callback subscribed first is invoked first" order at this concrete
input. -/
theorem pubsub_publish_not_subscription_order :
    (publish exTwoSubs ("clicks") 5).1.log
        = [("1", "clicks", 5), ("0", "clicks", 5)]
      ∧ ¬((publish exTwoSubs ("clicks") 5).1.log
        = [("0", "clicks", 5), ("1", "clicks", 5)]) := by
  decide

/-- C1, amended: `pubsub.publish(topic, payload)` invokes each currently
subscribed callback exactly once with arguments `(topic, payload)`, but in
REVERSE subscription order (the most recently subscribed callback first);
`container.publish` of the `publisherSubscriber` variant invokes each callback
once in subscription order but passes only the payload, not `(topic, payload)`.
Stated for non-re-entrant (plain) callbacks; the registry is left unchanged. -/
theorem publish_delivers_reverse_order
    (A B : List (String × List Subscription)) (t : String) (p : Payload)
    (o : List Subscription) (uid : Int) (lg : List (String × String × Payload))
    (hA : ∀ pr ∈ A, pr.1 ≠ t) (ho : ∀ s ∈ o, s.func = Cb.ret)
    (ps : PSState) (pt : String) (d : Payload) (subs : List PSub)
    (hpt : pt ∉ psMethodNames) (hsubs : psLookup ps.topics pt = some subs) :
    publish ⟨A ++ (t, o) :: B, uid, lg⟩ t p
        = (⟨A ++ (t, o) :: B, uid, lg ++ o.reverse.map (fun s => (s.token, t, p))⟩,
            Outcome.ret JsValue.handle)
      ∧ psPublish ps pt d
        = ({ ps with log := ps.log ++ subs.map (fun s => (s.callback, d)) }, false) := by
  constructor
  · have hlook : lookupTopic (A ++ (t, o) :: B) t = some o := lookupTopic_append A B t o hA
    have hloop := publishLoop_rets A B t p [] hA o ho [] uid lg
    simp only [List.length_nil, List.nil_append, List.append_nil, Nat.zero_add] at hloop
    simp only [publish, hlook, hloop, publishLoop]
    simp
  · simp only [psPublish, if_neg hpt, hsubs, psPublishLoop_eq]

/-- C1 witness: the amended theorem applied to two plain subscribers on
`"clicks"` and a two-subscriber container topic `"a"`. -/
theorem publish_delivers_reverse_order_witness :
    publish ⟨[("clicks", [⟨"0", Cb.ret⟩, ⟨"1", Cb.ret⟩])], 1, []⟩ ("clicks") 5
        = (⟨[("clicks", [⟨"0", Cb.ret⟩, ⟨"1", Cb.ret⟩])], 1,
            [("1", "clicks", 5), ("0", "clicks", 5)]⟩, Outcome.ret JsValue.handle)
      ∧ psPublish ⟨2, [("a", [⟨1, 100⟩, ⟨2, 101⟩])], []⟩ ("a") 6
        = (⟨2, [("a", [⟨1, 100⟩, ⟨2, 101⟩])], [(100, 6), (101, 6)]⟩, false) :=
  publish_delivers_reverse_order [] [] ("clicks") 5 [⟨"0", Cb.ret⟩, ⟨"1", Cb.ret⟩] 1 []
    (by simp) (by decide) ⟨2, [("a", [⟨1, 100⟩, ⟨2, 101⟩])], []⟩ ("a") 6 [⟨1, 100⟩, ⟨2, 101⟩]
    (by decide) (by decide)

/-- C2, counterexample: `pubsub.publish` on a never-subscribed topic returns
the JavaScript value `false`, not the number `0`, refuting "publish returns the
number of callbacks it invoked … returns 0" at this concrete input (it does
invoke nothing and throw nothing). -/
theorem pubsub_publish_returns_no_count :
    ¬((publish pubsubInit ("a") 0).2 = Outcome.ret (JsValue.num 0))
      ∧ (publish pubsubInit ("a") 0).2 = Outcome.ret (JsValue.bool false) := by
  decide

/-- C2, amended: `pubsub.publish` never returns a count: on a topic with no
registry entry it returns `false` without invoking anything and without
throwing; on a topic whose array exists (even empty) it returns the broker
handle (`this`); and `container.publish` of the `publisherSubscriber` variant
throws a `TypeError` on a never-subscribed topic instead of returning `0`. -/
theorem publish_missing_topic_behavior
    (st : BrokerState) (t : String) (p : Payload)
    (h : lookupTopic st.topics t = none)
    (st2 : BrokerState) (t2 : String) (p2 : Payload)
    (h2 : lookupTopic st2.topics t2 = some [])
    (ps : PSState) (t3 : String) (d : Payload)
    (h3 : t3 ∉ psMethodNames) (h4 : psLookup ps.topics t3 = none) :
    publish st t p = (st, Outcome.ret (JsValue.bool false))
      ∧ publish st2 t2 p2 = (st2, Outcome.ret JsValue.handle)
      ∧ psPublish ps t3 d = (ps, true) := by
  refine ⟨?_, ?_, ?_⟩
  · simp [publish, h]
  · simp [publish, h2, publishLoop]
  · simp only [psPublish, if_neg h3, h4]

/-- C2 witness: the amended theorem applied to the fresh broker (unknown topic
`"a"`), the emptied topic `"t"`, and the fresh container (unknown topic
`"zzz"`). -/
theorem publish_missing_topic_behavior_witness :
    publish pubsubInit ("a") 0 = (pubsubInit, Outcome.ret (JsValue.bool false))
      ∧ publish exEmptyTopic ("t") 1 = (exEmptyTopic, Outcome.ret JsValue.handle)
      ∧ psPublish psInit ("zzz") 6 = (psInit, true) :=
  publish_missing_topic_behavior pubsubInit ("a") 0 (by decide)
    exEmptyTopic ("t") 1 (by decide) psInit ("zzz") 6 (by decide) (by decide)

/-- C3: across any sequence of `subscribe` calls on one broker instance — any
topics — the returned tokens are pairwise distinct, both for the `pubsub`
broker (tokens are the decimal strings of the strictly increasing `subUid`)
and for the `publisherSubscriber` container (ids are the strictly increasing
counter values). -/
theorem subscribe_tokens_pairwise_distinct :
    (∀ calls : List (String × Cb), ((runSubs pubsubInit calls).2).Nodup)
      ∧ (∀ pcalls : List (String × Nat), ((runPsSubs psInit pcalls).2).Nodup) := by
  constructor
  · intro calls
    rw [runSubs_tokens]
    have hfn : (fun i : Nat => intToString (pubsubInit.subUid + 1 + (i : Int)))
        = fun i : Nat => natToString i := by
      funext i
      have h : pubsubInit.subUid + 1 + (i : Int) = (i : Int) := by
        simp only [pubsubInit]
        omega
      rw [h]
      rfl
    rw [hfn]
    exact (List.nodup_range _).map natToString_injective
  · intro pcalls
    exact List.Pairwise.imp (fun hlt => Nat.ne_of_lt hlt) (runPsSubs_ids pcalls psInit).2

/-- C4, counterexample: `pubsub.unsubscribe` of a token that matches no
subscription returns the truthy broker handle (`this`) — exactly what the
claim says it must not return — rather than a "not found" sentinel (it does
leave the registry unchanged). -/
theorem unsubscribe_unknown_returns_handle_not_sentinel :
    (unsubscribe pubsubInit ("nope")).2 = JsValue.handle
      ∧ (unsubscribe pubsubInit ("nope")).1 = pubsubInit := by
  decide

/-- C4, amended: `pubsub.unsubscribe` of a token that matches no subscription
in any topic returns the broker handle (`this`, a truthy value, not a
"not found" sentinel) and leaves the whole state — registry, counter, log —
unchanged. -/
theorem unsubscribe_unknown_token_noop (st : BrokerState) (tok : String)
    (h : tok ∉ registryTokens st.topics) :
    unsubscribe st tok = (st, JsValue.handle) := by
  simp [unsubscribe, unsubTopics_none st.topics h]

/-- C4 witness: the amended theorem applied to the two-topic broker and the
unknown token `"9"`. -/
theorem unsubscribe_unknown_token_noop_witness :
    unsubscribe exTwoTopics ("9") = (exTwoTopics, JsValue.handle) :=
  unsubscribe_unknown_token_noop exTwoTopics ("9") (by decide)

/-- C5: for a token held by exactly one subscription in the registry,
`pubsub.unsubscribe(token)` removes precisely that subscription — its topic
keeps all other entries in the same order (`pre ++ post`), every other topic's
entry is untouched (`A` and `B` are carried over verbatim), the counter and
log are untouched — and the call returns the token. -/
theorem unsubscribe_unique_token_removes_one (st : BrokerState) (tok : String)
    (h : (registryTokens st.topics).count tok = 1) :
    ∃ A B m pre s post,
      st.topics = A ++ (m, pre ++ s :: post) :: B ∧ s.token = tok ∧
        unsubscribe st tok
          = ({ st with topics := A ++ (m, pre ++ post) :: B }, JsValue.str tok) := by
  obtain ⟨A, B, m, pre, s, post, h1, h2, h3⟩ := unsubTopics_count_one st.topics tok h
  refine ⟨A, B, m, pre, s, post, h1, h2, ?_⟩
  simp only [unsubscribe, h3]

/-- C5 witness: the theorem applied to the two-topic broker and the token
`"1"`, which occurs exactly once (on topic `"b"`). -/
theorem unsubscribe_unique_token_removes_one_witness :
    ∃ A B m pre s post,
      exTwoTopics.topics = A ++ (m, pre ++ s :: post) :: B ∧
        Subscription.token s = ("1") ∧
        unsubscribe exTwoTopics ("1")
          = ({ exTwoTopics with topics := A ++ (m, pre ++ post) :: B }, JsValue.str ("1")) :=
  unsubscribe_unique_token_removes_one exTwoTopics ("1") (by decide)

/-- C6, counterexample: on topic `"t"` with subscribers `"0"`, `"1"`, `"2"`
(in subscription order), where the callback of `"2"` unsubscribes `"0"`,
`publish("t", 7)` never invokes the removed subscriber `"0"` — although it was
in the sequence when the call started — and invokes `"2"` twice: the loop
iterates the live array backwards, not an immutable snapshot. This refutes
"a subscription removed during the in-flight publish still receives that
call's notification" (and the exactly-once delivery) at this concrete
input. -/
theorem publish_snapshot_claim_fails :
    ("0", "t", 7) ∉ (publish exRemoval ("t") 7).1.log
      ∧ ((publish exRemoval ("t") 7).1.log).count (("2" : String), ("t" : String), (7 : Payload)) = 2 := by
  decide

/-- C6, amended: `pubsub.publish` iterates the live subscriber array backwards
from the length captured at entry, so snapshot semantics fail in general (see
the counterexample); what does hold is the self-unsubscription contract: if
every callback of the published topic either returns plainly or unsubscribes
its own token (tokens being distinct, as `subscribe` guarantees), then every
subscriber present at the start of the call — including each
self-unsubscriber — is invoked exactly once, in reverse subscription order,
and afterwards the topic retains exactly the plain subscribers in order
(`keepSubs`), so a self-unsubscriber receives no later notifications. A
subscription removed by a different, later-subscribed subscriber's callback
misses the in-flight call instead of receiving it. -/
theorem publish_self_unsubscribers_complete
    (A B : List (String × List Subscription)) (t : String) (p : Payload)
    (o : List Subscription) (uid : Int) (lg : List (String × String × Payload))
    (hA : ∀ pr ∈ A, pr.1 ≠ t)
    (hAtok : ∀ s ∈ o, ∀ pr ∈ A, s.token ∉ pr.2.map Subscription.token)
    (hnd : (o.map Subscription.token).Nodup)
    (htame : ∀ s ∈ o, s.func = Cb.ret ∨ s.func = Cb.unsub s.token Cb.ret) :
    publish ⟨A ++ (t, o) :: B, uid, lg⟩ t p
      = (⟨A ++ (t, keepSubs o) :: B, uid,
          lg ++ o.reverse.map (fun s => (s.token, t, p))⟩, Outcome.ret JsValue.handle) := by
  have hlook : lookupTopic (A ++ (t, o) :: B) t = some o := lookupTopic_append A B t o hA
  have hloop := publishLoop_tame A B t p o hA hAtok hnd htame o.length (Nat.le_refl _) uid lg
  simp only [List.take_length, List.drop_length] at hloop
  have hnilkeep : keepSubs ([] : List Subscription) = [] := rfl
  rw [hnilkeep, List.append_nil] at hloop
  simp only [publish, hlook, hloop]
  simp

/-- C6 witness: the amended theorem applied to topic `"t"` with a plain
subscriber `"0"`, a self-unsubscriber `"1"`, and a plain subscriber `"2"`:
all three are invoked (in reverse order), and `"1"` is gone afterwards. -/
theorem publish_self_unsubscribers_complete_witness :
    publish ⟨[("t", [⟨"0", Cb.ret⟩, ⟨"1", Cb.unsub ("1") Cb.ret⟩, ⟨"2", Cb.ret⟩])], 2, []⟩
        ("t") 7
      = (⟨[("t", keepSubs [⟨"0", Cb.ret⟩, ⟨"1", Cb.unsub ("1") Cb.ret⟩, ⟨"2", Cb.ret⟩])], 2,
          [("2", "t", 7), ("1", "t", 7), ("0", "t", 7)]⟩, Outcome.ret JsValue.handle) :=
  publish_self_unsubscribers_complete [] []
    ("t") 7 [⟨"0", Cb.ret⟩, ⟨"1", Cb.unsub ("1") Cb.ret⟩, ⟨"2", Cb.ret⟩] 2 []
    (by simp) (by simp) (by decide) (by decide)

/-- C7, counterexample: on topic `"t"` with a plain subscriber `"0"` and a
subscriber `"1"` whose callback throws (`"1"` is invoked first, the loop
running backwards), `publish("t", 3)` propagates the exception — the call's
outcome is a throw, not an aggregated error result — and the remaining
subscriber `"0"` is never invoked, refuting the claimed isolation of
subscriber failures at this concrete input. -/
theorem publish_throwing_subscriber_aborts :
    (publish exThrower ("t") 3).2 = Outcome.thrown
      ∧ ("0", "t", 3) ∉ (publish exThrower ("t") 3).1.log := by
  decide

/-- C7, amended: `pubsub.publish` has no try/catch: when a subscriber's
callback throws, the exception propagates out of `publish` (outcome
`thrown`, no aggregated per-subscriber error result), the callbacks iterated
before it (those later in subscription order) have run, and every remaining
subscriber (earlier in subscription order) is not invoked in that call; the
registry is left as it was. -/
theorem publish_throw_propagates
    (A B : List (String × List Subscription)) (t : String) (p : Payload)
    (pre post : List Subscription) (w : Subscription) (uid : Int)
    (lg : List (String × String × Payload))
    (hA : ∀ pr ∈ A, pr.1 ≠ t)
    (hpost : ∀ s ∈ post, s.func = Cb.ret)
    (hw : w.func = Cb.throws) :
    publish ⟨A ++ (t, pre ++ w :: post) :: B, uid, lg⟩ t p
      = (⟨A ++ (t, pre ++ w :: post) :: B, uid,
          lg ++ post.reverse.map (fun s => (s.token, t, p)) ++ [(w.token, t, p)]⟩,
          Outcome.thrown) := by
  have hlook : lookupTopic (A ++ (t, pre ++ w :: post) :: B) t = some (pre ++ w :: post) :=
    lookupTopic_append A B t (pre ++ w :: post) hA
  have hlist : (pre ++ [w]) ++ post ++ [] = pre ++ w :: post := by simp
  have hloop := publishLoop_rets A B t p (pre ++ [w]) hA post hpost [] uid lg
  rw [hlist] at hloop
  have hlen : (pre ++ w :: post).length = pre.length + 1 + post.length := by
    simp only [List.length_append, List.length_cons]
    omega
  have hlen2 : (pre ++ [w]).length = pre.length + 1 := by simp
  rw [hlen2] at hloop
  have hget : (pre ++ w :: post)[pre.length]? = some w := by
    rw [List.getElem?_append_right (Nat.le_refl pre.length)]
    simp
  have hstep : publishLoop t p (pre.length + 1)
      ⟨A ++ (t, pre ++ w :: post) :: B, uid,
        lg ++ post.reverse.map (fun s => (s.token, t, p))⟩
      = (⟨A ++ (t, pre ++ w :: post) :: B, uid,
          lg ++ post.reverse.map (fun s => (s.token, t, p)) ++ [(w.token, t, p)]⟩,
          true) := by
    simp only [publishLoop, hlook, hget, invokeSub, hw, runCb]
  simp only [publish, hlook, hlen, hloop, hstep]
  simp

/-- C7 witness: the amended theorem applied to topic `"t"` with plain
subscriber `"0"` and throwing subscriber `"1"`. -/
theorem publish_throw_propagates_witness :
    publish ⟨[("t", [⟨"0", Cb.ret⟩, ⟨"1", Cb.throws⟩])], 1, []⟩ ("t") 3
      = (⟨[("t", [⟨"0", Cb.ret⟩, ⟨"1", Cb.throws⟩])], 1, [("1", "t", 3)]⟩,
          Outcome.thrown) :=
  publish_throw_propagates [] [] ("t") 3 [⟨"0", Cb.ret⟩] [] ⟨"1", Cb.throws⟩ 1 []
    (by simp) (by simp) (by decide)

/-- C8 (code bug): `Subject.removeObserver` of an observer that was never
added is not a no-op on a non-empty list: `indexOf` returns `-1`, `removeAt`
passes it to `splice(-1, 1)` unguarded, and the LAST observer is removed —
here the only observer (id 1) disappears when removing the absent observer
(id 2), so the count drops from 1 to 0. -/
theorem removeObserver_absent_removes_last :
    Subject.removeObserver ⟨⟨[⟨1, []⟩]⟩, []⟩ ⟨2, []⟩ = ⟨⟨[]⟩, []⟩
      ∧ (ObserverList.countObs ⟨[⟨1, []⟩]⟩ = 1
          ∧ (Subject.removeObserver ⟨⟨[⟨1, []⟩]⟩, []⟩ ⟨2, []⟩).observers.countObs = 0) := by
  decide

/-- C9: `Click.unsubscribe(fn)` removes every registration identity-equal to
`fn` — also when `fn` was subscribed several times — keeping the remaining
handlers in their relative order (the list becomes exactly the original
filtered by `≠ fn`), and a subsequent `fire` invokes `fn` zero times. -/
theorem click_unsubscribe_removes_all (hs : List Handler) (fn : Handler) (o : Payload) :
    (Click.unsubscribe ⟨hs⟩ fn).handlers = hs.filter (fun h => decide (h ≠ fn))
      ∧ ∀ e ∈ Click.fire (Click.unsubscribe ⟨hs⟩ fn) o, e.1 ≠ fn := by
  have h1 : (Click.unsubscribe ⟨hs⟩ fn).handlers = hs.filter (fun h => decide (h ≠ fn)) := by
    simp only [Click.unsubscribe]
    apply List.filter_congr
    intro x _
    by_cases hx : x = fn
    · simp [hx, jsTruthy]
    · simp [hx, jsTruthy]
  refine ⟨h1, ?_⟩
  intro e he
  rw [Click.fire, fireLoop_eq, List.nil_append, h1] at he
  obtain ⟨h', hh', rfl⟩ := List.mem_map.mp he
  have := List.of_mem_filter hh'
  simpa using this

/-- C10: `Subject.notify(context)` reads the observer count once at entry, so
the observers appended by an observer's `update` during the in-flight notify
are present in the final list (after the original ones) but are never invoked
in that call: the invocation log gains exactly one entry per original
observer, in order, and nothing for the added ones. -/
theorem notify_added_observers_not_invoked (s : Subject) (ctx : Payload) :
    Subject.notify s ctx
      = (⟨⟨s.observers.observerList ++ addedObs s.observers.observerList⟩,
          s.log ++ s.observers.observerList.map (fun o => (o.id, ctx))⟩, false) := by
  have h := notifyLoop_adds ctx s.observers.observerList [] [] s.log
  simp only [List.nil_append, List.append_nil] at h
  exact h

end JSDP
